import Mathlib

/-!
Verification of the real-time audio streaming and playback-scheduling engine
of LingoMate (`src/components/LiveConversation.tsx`).

The playback scheduler lives in the `onmessage` callback: on a message
carrying audio, the handler synchronously executes
`nextStartTime := max(nextStartTime, ctx.currentTime)`, then suspends on the
asynchronous `decodeAudioData`, and on resumption synchronously executes
`source.start(nextStartTime); nextStartTime += buffer.duration;
sources.add(source)`.  On a message carrying an interruption flag the handler
stops every source in the active set (each stop wrapped in try/catch), clears
the set, and resets `nextStartTime` to 0; for a message carrying both audio
and the flag this runs after the decode resumption, in the same synchronous
block.  `decodeAudioData` itself is defined in `utils/audioUtils`, which is
not part of the sources here; following the specification (section 5) it is
modelled as an asynchronous suspension point whose completion may interleave
arbitrarily with other handler invocations.

The model is a small-step system: a state `SchedState` carries the timeline
cursor, the output clock, the set of handler invocations suspended at the
decode point (`pending`), the active playback set, and a log of scheduled
units `(id, startTime, duration)` in the order they were committed.  Events
(`Ev`) are message arrival, decode completion (success or failure), natural
end of a unit, and clock advance.
-/

namespace LingoMate

/-- Executable maximum on the rationals (`Math.max`); kernel-reducible,
unlike the order-theoretic `max` bundled with the `LinearOrder` instance. -/
def qmax (a b : ℚ) : ℚ := if a ≤ b then b else a

theorem qmax_eq_max (a b : ℚ) : qmax a b = max a b := by
  unfold qmax
  split
  · exact (max_eq_right (by assumption)).symm
  · exact (max_eq_left (le_of_not_le (by assumption))).symm

/-- State of the playback scheduler shared by all `onmessage` invocations:
`cursor` is `nextStartTimeRef.current`, `clock` is `ctx.currentTime`,
`pending` the invocations suspended at the decode `await` (unit id, payload
duration, whether the same message also carried the interruption flag),
`active` is `sourcesRef.current`, `started` the log of committed
`source.start` calls as `(id, startTime, duration)`. -/
structure SchedState where
  cursor : ℚ
  clock : ℚ
  pending : List (ℕ × ℚ × Bool)
  active : List ℕ
  started : List (ℕ × ℚ × ℚ)
  nextId : ℕ
deriving Repr, DecidableEq

/-- Initial state: fresh output context, cursor 0. -/
def initSched : SchedState := ⟨0, 0, [], [], [], 0⟩

/-- Events driving the scheduler: arrival of a server message (audio payload
with its decoded duration, and/or the interruption flag), settlement of a
pending decode (`ok = false` is a decode failure, which aborts the rest of
that handler invocation), the `ended` event of a scheduled source, and
advancement of the output clock. -/
inductive Ev where
  | message (audio : Option ℚ) (intr : Bool)
  | decoded (tid : ℕ) (ok : Bool)
  | ended (tid : ℕ)
  | tick (t : ℚ)
deriving Repr, DecidableEq

/-- The interruption block (lines 154-160 of `LiveConversation.tsx`): stop
every active source, clear the set, reset the cursor to 0.  The block
contains no suspension point, so it is a single atomic step. -/
def applyInterrupt (s : SchedState) : SchedState :=
  { s with active := [], cursor := 0 }

/-- One atomic step of the event loop.  `message (some d) intr` runs the
synchronous prefix of the handler (the `max` update of the cursor, line 131)
and parks the invocation at the decode await; `decoded tid ok` runs the
continuation (schedule at the current cursor, advance the cursor, insert
into the active set, lines 140-150, then the interruption block if the same
message carried the flag); a failed decode aborts the invocation.  A message
with no audio and the flag runs the interruption block directly (the handler
reaches it without suspending). -/
def step (s : SchedState) : Ev → SchedState
  | Ev.message (some d) intr =>
      { s with cursor := qmax s.cursor s.clock,
               pending := s.pending ++ [(s.nextId, d, intr)],
               nextId := s.nextId + 1 }
  | Ev.message none intr => if intr then applyInterrupt s else s
  | Ev.decoded tid ok =>
      match s.pending.find? (fun p => p.1 == tid) with
      | some (_, d, intr) =>
          let s1 := { s with pending := s.pending.filter (fun p => p.1 != tid) }
          if ok then
            let s2 := { s1 with started := s1.started ++ [(tid, s1.cursor, d)],
                                cursor := s1.cursor + d,
                                active := s1.active ++ [tid] }
            if intr then applyInterrupt s2 else s2
          else s1
      | none => s
  | Ev.ended tid => { s with active := s.active.filter (fun i => i != tid) }
  | Ev.tick t => { s with clock := qmax s.clock t }

/-- Run a sequence of event-loop steps. -/
def run (s : SchedState) (evs : List Ev) : SchedState := evs.foldl step s

/-- A sequentially processed enqueue: the clock advances to `t`, the message
arrives, and its decode settles before anything else runs. -/
def enqueueNow (s : SchedState) (t d : ℚ) : SchedState :=
  run s [Ev.tick t, Ev.message (some d) false, Ev.decoded s.nextId true]

/-- A sequentially processed enqueue whose decode fails. -/
def failedEnqueue (s : SchedState) (t d : ℚ) : SchedState :=
  run s [Ev.tick t, Ev.message (some d) false, Ev.decoded s.nextId false]

/-- End of a scheduled unit on the timeline: start time plus duration. -/
def endOf (e : ℕ × ℚ × ℚ) : ℚ := e.2.1 + e.2.2

/-- The committed units are chained: each starts no earlier than the end of
the previously committed one. -/
def ChainedLog (l : List (ℕ × ℚ × ℚ)) : Prop :=
  List.Chain' (fun a b => endOf a ≤ b.2.1) l

/-- Well-formed event: audio payloads have nonnegative duration and no
message carries the interruption flag. -/
def evOkB : Ev → Bool
  | Ev.message (some d) intr => decide (0 ≤ d) && !intr
  | Ev.message none intr => !intr
  | _ => true

/-- Stopping an `AudioBufferSourceNode`; stopping a unit that has already
finished may raise, which is the failure the code guards against. -/
def stopSource (finished : Bool) : Except String Unit :=
  if finished then Except.error "InvalidStateError" else Except.ok ()

/-- `try { src.stop() } catch (e) {}` — the stop attempt with its catch. -/
def tryStopSource (finished : Bool) : Except String Unit :=
  match stopSource finished with
  | Except.error _ => Except.ok ()
  | Except.ok u => Except.ok u

/-- The interruption handler's `sourcesRef.current.forEach(src => { try {
src.stop() } catch (e) {} })`: stop every unit best-effort, propagating any
uncaught exception. -/
def interruptStopAll : List Bool → Except String Unit
  | [] => Except.ok ()
  | f :: rest =>
    match tryStopSource f with
    | Except.error e => Except.error e
    | Except.ok _ => interruptStopAll rest

/-- Invariant maintained by interruption-free, nonnegative-duration events:
the committed log is chained, every committed unit ends no later than the
cursor, and pending invocations carry nonnegative durations and no
interruption flags. -/
structure SchedInv (s : SchedState) : Prop where
  chained : ChainedLog s.started
  cursorLB : ∀ e ∈ s.started, endOf e ≤ s.cursor
  nonnegLog : ∀ e ∈ s.started, 0 ≤ e.2.2
  nonnegPend : ∀ p ∈ s.pending, 0 ≤ p.2.1
  flagsFalse : ∀ p ∈ s.pending, p.2.2 = false

theorem initSched_inv : SchedInv initSched := by
  constructor <;> simp [initSched, ChainedLog]

theorem step_inv {s : SchedState} {e : Ev} (hs : SchedInv s) (he : evOkB e = true) :
    SchedInv (step s e) := by
  cases e with
  | message audio intr =>
    cases audio with
    | none =>
      have hi : intr = false := by simpa [evOkB] using he
      subst hi
      simpa [step] using hs
    | some d =>
      have hh : 0 ≤ d ∧ intr = false := by
        simpa [evOkB, Bool.and_eq_true, decide_eq_true_eq] using he
      obtain ⟨hd, hi⟩ := hh
      subst hi
      constructor
      · simpa [step] using hs.chained
      · intro e he'
        simp only [step] at he' ⊢
        refine le_trans (hs.cursorLB e he') ?_
        rw [qmax_eq_max]
        exact le_max_left _ _
      · intro e he'
        simp only [step] at he'
        exact hs.nonnegLog e he'
      · intro p hp
        simp only [step, List.mem_append, List.mem_singleton] at hp
        rcases hp with hp | hp
        · exact hs.nonnegPend p hp
        · subst hp; exact hd
      · intro p hp
        simp only [step, List.mem_append, List.mem_singleton] at hp
        rcases hp with hp | hp
        · exact hs.flagsFalse p hp
        · subst hp; rfl
  | decoded tid ok =>
    rcases hfind : s.pending.find? (fun p => p.1 == tid) with _ | p
    · simpa [step, hfind] using hs
    · obtain ⟨p1, d, intr⟩ := p
      have hmem : (p1, d, intr) ∈ s.pending := List.mem_of_find?_eq_some hfind
      have hflag : intr = false := hs.flagsFalse _ hmem
      have hd : 0 ≤ d := hs.nonnegPend _ hmem
      subst hflag
      cases ok with
      | false =>
        have hstep : step s (Ev.decoded tid false) =
            { s with pending := s.pending.filter (fun p => p.1 != tid) } := by
          simp [step, hfind]
        rw [hstep]
        exact ⟨hs.chained, hs.cursorLB, hs.nonnegLog,
          fun p hp => hs.nonnegPend p (List.mem_of_mem_filter hp),
          fun p hp => hs.flagsFalse p (List.mem_of_mem_filter hp)⟩
      | true =>
        have hstep : step s (Ev.decoded tid true) =
            { s with pending := s.pending.filter (fun p => p.1 != tid),
                     started := s.started ++ [(tid, s.cursor, d)],
                     cursor := s.cursor + d,
                     active := s.active ++ [tid] } := by
          simp [step, hfind]
        rw [hstep]
        refine ⟨?_, ?_, ?_, ?_, ?_⟩
        · show List.Chain' (fun a b => endOf a ≤ b.2.1) (s.started ++ [(tid, s.cursor, d)])
          rw [List.chain'_append]
          refine ⟨hs.chained, List.chain'_singleton _, ?_⟩
          intro x hx y hy
          simp only [List.head?_cons, Option.mem_def, Option.some.injEq] at hy
          subst hy
          obtain ⟨hne, hx'⟩ := List.mem_getLast?_eq_getLast hx
          exact hx' ▸ hs.cursorLB _ (List.getLast_mem hne)
        · intro e he'
          rcases List.mem_append.mp he' with h1 | h1
          · exact le_trans (hs.cursorLB e h1) (le_add_of_nonneg_right hd)
          · rw [List.mem_singleton.mp h1]
            exact le_refl _
        · intro e he'
          rcases List.mem_append.mp he' with h1 | h1
          · exact hs.nonnegLog e h1
          · rw [List.mem_singleton.mp h1]
            exact hd
        · exact fun p hp => hs.nonnegPend p (List.mem_of_mem_filter hp)
        · exact fun p hp => hs.flagsFalse p (List.mem_of_mem_filter hp)
  | ended tid =>
    exact ⟨by simpa [step] using hs.chained, by simpa [step] using hs.cursorLB,
      by simpa [step] using hs.nonnegLog, by simpa [step] using hs.nonnegPend,
      by simpa [step] using hs.flagsFalse⟩
  | tick t =>
    exact ⟨by simpa [step] using hs.chained, by simpa [step] using hs.cursorLB,
      by simpa [step] using hs.nonnegLog, by simpa [step] using hs.nonnegPend,
      by simpa [step] using hs.flagsFalse⟩

theorem run_inv {s : SchedState} {evs : List Ev} (hs : SchedInv s)
    (h : evs.all evOkB = true) : SchedInv (run s evs) := by
  induction evs generalizing s with
  | nil => exact hs
  | cons e t ih =>
    rw [List.all_cons, Bool.and_eq_true] at h
    exact ih (step_inv hs h.1) h.2

/-- A chained log with nonnegative durations has nondecreasing start times. -/
theorem chained_starts_mono (l : List (ℕ × ℚ × ℚ)) (hc : ChainedLog l)
    (hd : ∀ e ∈ l, 0 ≤ e.2.2) :
    List.Pairwise (fun a b => a.2.1 ≤ b.2.1) l := by
  induction l with
  | nil => exact List.Pairwise.nil
  | cons a t ih =>
    rw [List.pairwise_cons]
    have hct : ChainedLog t := (List.chain'_cons'.mp hc).2
    have hpt := ih hct (fun e he => hd e (List.mem_cons_of_mem a he))
    refine ⟨?_, hpt⟩
    intro b hb
    cases t with
    | nil => cases hb
    | cons c u =>
      have hac : endOf a ≤ c.2.1 := (List.chain'_cons.mp hc).1
      have ha1 : a.2.1 ≤ c.2.1 :=
        le_trans (le_add_of_nonneg_right (hd a (List.mem_cons_self a _))) hac
      rcases List.mem_cons.mp hb with rfl | hb'
      · exact ha1
      · exact le_trans ha1 ((List.pairwise_cons.mp hpt).1 b hb')

/-- Full characterisation of a sequentially processed enqueue from a state
with no pending decode. -/
theorem enqueueNow_spec (s : SchedState) (t d : ℚ) (h : s.pending = []) :
    enqueueNow s t d =
      { cursor := qmax s.cursor (qmax s.clock t) + d,
        clock := qmax s.clock t,
        pending := [],
        active := s.active ++ [s.nextId],
        started := s.started ++ [(s.nextId, qmax s.cursor (qmax s.clock t), d)],
        nextId := s.nextId + 1 } := by
  simp [enqueueNow, run, step, h]

/-- Full characterisation of a sequentially processed enqueue whose decode
fails, from a state with no pending decode. -/
theorem failedEnqueue_spec (s : SchedState) (t d : ℚ) (h : s.pending = []) :
    failedEnqueue s t d =
      { cursor := qmax s.cursor (qmax s.clock t),
        clock := qmax s.clock t,
        pending := [],
        active := s.active,
        started := s.started,
        nextId := s.nextId + 1 } := by
  simp [failedEnqueue, run, step, h]

theorem qmax_absorb (c m u : ℚ) : qmax (qmax c m) (qmax m u) = qmax c (qmax m u) := by
  simp only [qmax_eq_max]
  rw [max_assoc, ← max_assoc m m u, max_self]

theorem qmax_shift (c t u : ℚ) (h : t ≤ u) : qmax (qmax c t) u = qmax c u := by
  simp only [qmax_eq_max]
  rw [max_assoc, max_eq_right h]

example : (enqueueNow initSched 0 1).cursor = 1 := by
  norm_num [enqueueNow, run, step, initSched, qmax]
example : (enqueueNow (enqueueNow initSched 0 1) (1/5) (1/2)).started
    = [(0, 0, 1), (1, 1, 1/2)] := by
  norm_num [enqueueNow, run, step, initSched, qmax]
example : (step (enqueueNow initSched 0 1) (Ev.message none true)).cursor = 0 := by
  norm_num [enqueueNow, run, step, initSched, qmax, applyInterrupt]

/-!
Lifecycle model (`startSession`, `stopSession`, `cleanupAudio`, and the
capture callback `onaudioprocess` of `LiveConversation.tsx`).  Browser
objects are modelled by their observable status: a media-stream track by
whether it has been stopped, an audio context by whether it has been closed,
the session object by whether its `close()` raises.  The component's refs are
`Option`-valued; teardown returns, besides the new ref state, a `Released`
record of the external objects it stopped or closed, so that theorems can
speak about resources after the refs are nulled.
-/

/-- One track of the acquired input media stream. -/
structure Track where
  stopped : Bool
deriving Repr, DecidableEq

/-- The acquired microphone `MediaStream`. -/
structure MediaStream where
  tracks : List Track
deriving Repr, DecidableEq

/-- An `AudioContext` (input-rate 16 kHz or output-rate 24 kHz). -/
structure AudioCtx where
  closed : Bool
deriving Repr, DecidableEq

/-- The live-session object; `closeFails` records whether `close()` raises. -/
structure SessionObj where
  closeFails : Bool
deriving Repr, DecidableEq

/-- The component's ref state: `sessionRef`, `processorRef`, `sourceRef`,
`streamRef`, `inputAudioContextRef`, `outputAudioContextRef`, `sourcesRef`
(finished-flags of the scheduled playback sources) and the
`isConnected`/`isTalking`/`error` React state. -/
structure AppState where
  sessionOpen : Option SessionObj
  processor : Option Unit
  sourceNode : Option Unit
  stream : Option MediaStream
  inputCtx : Option AudioCtx
  outputCtx : Option AudioCtx
  playing : List Bool
  isConnected : Bool
  isTalking : Bool
  errorMsg : Option String
deriving Repr, DecidableEq

/-- External objects stopped or closed by a teardown. -/
structure Released where
  stoppedTracks : List Track
  closedInput : Option AudioCtx
  closedOutput : Option AudioCtx
deriving Repr, DecidableEq

/-- The empty release record: nothing was held, nothing was touched. -/
def noRelease : Released := ⟨[], none, none⟩

/-- `track.stop()`. -/
def stopTrack (_ : Track) : Track := ⟨true⟩

/-- `ctx.close()`. -/
def closeCtx (_ : AudioCtx) : AudioCtx := ⟨true⟩

/-- The pristine component state before any session was started. -/
def initApp : AppState := ⟨none, none, none, none, none, none, [], false, false, none⟩

/-- `cleanupAudio` (lines 43-70): disconnect and null the processor and
source nodes, stop every track of the stream and null it, close and null
both audio contexts, best-effort-stop and clear the playing sources. -/
def cleanupAudio (s : AppState) : AppState × Released :=
  ({ s with processor := none, sourceNode := none, stream := none,
            inputCtx := none, outputCtx := none, playing := [] },
   { stoppedTracks := (s.stream.map (fun ms => ms.tracks.map stopTrack)).getD []
     closedInput := s.inputCtx.map closeCtx
     closedOutput := s.outputCtx.map closeCtx })

/-- `session.close()`. -/
def closeSession (o : SessionObj) : Except String Unit :=
  if o.closeFails then Except.error "close failed" else Except.ok ()

/-- `stopSession` (lines 191-204): close the session inside try/catch
(errors logged, not raised), null the session ref, run `cleanupAudio`, and
clear the connection flags. -/
def stopSession (s : AppState) : Except String (AppState × Released) :=
  match (match s.sessionOpen with
         | some o =>
           match closeSession o with
           | Except.error _ => Except.ok ()
           | Except.ok u => Except.ok u
         | none => Except.ok ()) with
  | Except.error e => Except.error e
  | Except.ok _ =>
    let s1 := { s with sessionOpen := none }
    let step2 := cleanupAudio s1
    Except.ok ({ step2.1 with isConnected := false, isTalking := false }, step2.2)

/-- The component is idle: every ref nulled, no playing source, flags down. -/
def isIdleState (s : AppState) : Bool :=
  s.sessionOpen.isNone && s.processor.isNone && s.sourceNode.isNone &&
  s.stream.isNone && s.inputCtx.isNone && s.outputCtx.isNone &&
  s.playing.isEmpty && !s.isConnected && !s.isTalking

/-- The user-visible message set by the `startSession` catch block. -/
def micDeniedMsg : String := "Failed to access microphone or connect to AI."

/-- Result of a start request: the new ref state, whether
`ai.live.connect` was ever invoked, and what the catch path released. -/
structure StartResult where
  state : AppState
  connectCalled : Bool
  released : Released
deriving Repr, DecidableEq

/-- `startSession` (lines 72-189): clear the error, create both audio
contexts, then `await getUserMedia`; on success store the stream and open
the session, on permission denial jump to the catch block, which sets the
user-visible error and runs `cleanupAudio`.  `ai.live.connect` is only
reached after device acquisition succeeds. -/
def startSession (s0 : AppState) (micGranted : Bool) : StartResult :=
  let s1 := { s0 with errorMsg := none,
                      inputCtx := some ⟨false⟩, outputCtx := some ⟨false⟩ }
  if micGranted then
    let s2 := { s1 with stream := some ⟨[⟨false⟩]⟩, sessionOpen := some ⟨false⟩ }
    { state := s2, connectCalled := true, released := noRelease }
  else
    let cleaned := cleanupAudio { s1 with errorMsg := some micDeniedMsg }
    { state := cleaned.1, connectCalled := false, released := cleaned.2 }

/-- `session.sendRealtimeInput({ media: pcmBlob })`: delivery may fail. -/
def sendFrame (ok : Bool) : Except String Unit :=
  if ok then Except.ok () else Except.error "send failed"

/-- One `onaudioprocess` invocation (lines 112-120): encode the frame and
send it; a rejected send is caught and logged (`none`), a delivered frame is
`some f`; the callback itself never raises. -/
def handleFrame (f : ℕ) (ok : Bool) : Except String (Option ℕ) :=
  match sendFrame ok with
  | Except.error _ => Except.ok none
  | Except.ok _ => Except.ok (some f)

/-- The capture pipeline over a sequence of frames (frame id paired with
whether its send succeeds): returns the delivered frames and the logged
failures, in order. -/
def runCapture : List (ℕ × Bool) → List ℕ × List ℕ
  | [] => ([], [])
  | f :: rest =>
    let r := runCapture rest
    match sendFrame f.2 with
    | Except.ok _ => (f.1 :: r.1, r.2)
    | Except.error _ => (r.1, f.1 :: r.2)

theorem runCapture_append (xs ys : List (ℕ × Bool)) :
    runCapture (xs ++ ys) =
      ((runCapture xs).1 ++ (runCapture ys).1, (runCapture xs).2 ++ (runCapture ys).2) := by
  induction xs with
  | nil => simp [runCapture]
  | cons f rest ih =>
    cases hok : f.2 with
    | true => simp [runCapture, sendFrame, hok, ih]
    | false => simp [runCapture, sendFrame, hok, ih]

/-- What `stopSession` always returns: the idle ref state plus the record of
what was stopped and closed. -/
theorem stopSession_eq (s : AppState) :
    stopSession s = Except.ok
      ({ s with sessionOpen := none, processor := none, sourceNode := none,
                stream := none, inputCtx := none, outputCtx := none,
                playing := [], isConnected := false, isTalking := false },
       { stoppedTracks := (s.stream.map (fun ms => ms.tracks.map stopTrack)).getD []
         closedInput := s.inputCtx.map closeCtx
         closedOutput := s.outputCtx.map closeCtx }) := by
  rcases s with ⟨sess, proc, src, str, ic, oc, pl, c, tk, em⟩
  cases sess with
  | none => simp [stopSession, cleanupAudio]
  | some o =>
    cases h : o.closeFails with
    | true => simp [stopSession, cleanupAudio, closeSession, h]
    | false => simp [stopSession, cleanupAudio, closeSession, h]

/-- C1 counterexample: the claim bounds the gap `start(i+1) - (start(i)+d(i))`
by a scheduling-jitter epsilon, but the code computes the next start as
`max(cursor, clock)`, so when the second payload arrives after the output
clock has passed the end of the first unit the gap equals the idle time and
is unbounded.  Concretely: a 1-second unit scheduled at clock 0 followed by
an enqueue at clock 5 yields starts 0 and 5, a gap of 4 seconds, which is
not below even a generous jitter bound of 1 second. -/
theorem C1_counterexample :
    (run initSched [Ev.tick 0, Ev.message (some 1) false, Ev.decoded 0 true,
                    Ev.tick 5, Ev.message (some 1) false, Ev.decoded 1 true]).started
      = [(0, 0, 1), (1, 5, 1)] ∧ ¬((5 : ℚ) - (0 + 1) < 1) := by
  constructor
  · norm_num [run, step, initSched, qmax]
  · norm_num

/-- C1 (amended): for every sequence of enqueue operations, the computed
start times satisfy `start(i+1) >= start(i) + d(i)` (no overlap, in every
interleaving of interruption-free events with nonnegative durations), and a
sequentially processed enqueue starts at `max(cursor, clock)`: the gap over
the previous unit's end is zero whenever the enqueue arrives before the
output clock passes the cursor, and otherwise equals the idle time, which no
fixed epsilon bounds. -/
theorem C1_start_times_chained :
    (∀ evs : List Ev, evs.all evOkB = true →
      ChainedLog (run initSched evs).started) ∧
    (∀ (s : SchedState) (t d : ℚ), s.pending = [] →
      (enqueueNow s t d).started =
        s.started ++ [(s.nextId, max s.cursor (max s.clock t), d)] ∧
      s.cursor ≤ max s.cursor (max s.clock t) ∧
      (max s.clock t ≤ s.cursor → max s.cursor (max s.clock t) = s.cursor)) := by
  constructor
  · intro evs h
    exact (run_inv initSched_inv h).chained
  · intro s t d h
    refine ⟨?_, le_max_left _ _, fun hcl => max_eq_left hcl⟩
    rw [enqueueNow_spec s t d h]
    simp [qmax_eq_max]

theorem C1_start_times_chained_witness :
    ([Ev.tick 0, Ev.message (some 1) false, Ev.decoded 0 true].all evOkB = true ∧
      ChainedLog (run initSched
        [Ev.tick 0, Ev.message (some 1) false, Ev.decoded 0 true]).started) ∧
    (initSched.pending = [] ∧
      (enqueueNow initSched 2 3).started =
        initSched.started ++ [(initSched.nextId, max initSched.cursor (max initSched.clock 2), 3)]) :=
  ⟨⟨by decide, C1_start_times_chained.1 _ (by decide)⟩,
   ⟨rfl, (C1_start_times_chained.2 initSched 2 3 rfl).1⟩⟩

/-- C2 counterexample: the claim says every enqueue processed strictly
after an interruption starts at `max(0, clock)`, but an enqueue whose
decode was pending at the reset commits afterwards and advances the
post-reset chain.  Concretely: at clock 50, unit 0 (4 s) is enqueued; the
interruption resets the cursor; unit 1 (6 s) is enqueued strictly after
the reset, yet unit 0's decode then commits at 50 and advances the cursor
to 54, so unit 1 — message and decode both strictly after the reset —
starts at 54, not `max(0, clock) = 50`. -/
theorem C2_counterexample :
    (run initSched [Ev.tick 50, Ev.message (some 4) false, Ev.message none true,
                    Ev.message (some 6) false, Ev.decoded 0 true, Ev.decoded 1 true]).started
      = [(0, 50, 4), (1, 54, 6)] ∧
    ¬((54 : ℚ) = qmax 0 50) := by
  constructor
  · norm_num [run, step, initSched, qmax, applyInterrupt]
  · norm_num [qmax]

/-- C2 (amended): after an interruption event is processed the active
playback set is empty and the cursor is 0; an enqueue processed after that
point with no decode pending at the reset computes its start as
`max(0, clock)`; the post-interruption run is independent of the
pre-interruption cursor value (no start is computed from it); and stopping
every unit of the set, including already-finished ones, raises no error.
(Counterexample: with a decode pending at the reset, a strictly later
enqueue schedules from the post-reset chain, not at `max(0, clock)`.) -/
theorem C2_interruption_reset :
    (∀ s : SchedState, (step s (Ev.message none true)).active = [] ∧
        (step s (Ev.message none true)).cursor = 0) ∧
    (∀ (s : SchedState) (t d : ℚ), s.pending = [] →
      (enqueueNow (step s (Ev.message none true)) t d).started =
        s.started ++ [(s.nextId, max 0 (max s.clock t), d)]) ∧
    (∀ (s : SchedState) (c : ℚ) (evs : List Ev),
      run (step { s with cursor := c } (Ev.message none true)) evs =
        run (step s (Ev.message none true)) evs) ∧
    (∀ units : List Bool, interruptStopAll units = Except.ok ()) := by
  refine ⟨fun s => ⟨rfl, rfl⟩, ?_, fun s c evs => rfl, ?_⟩
  · intro s t d h
    rw [show step s (Ev.message none true) = applyInterrupt s from rfl,
        enqueueNow_spec (applyInterrupt s) t d h]
    simp [applyInterrupt, qmax_eq_max]
  · intro units
    induction units with
    | nil => rfl
    | cons f rest ih => cases f <;> simp [interruptStopAll, tryStopSource, stopSource, ih]

def c2state : SchedState := ⟨7, 2, [], [4], [(4, 1, 6)], 5⟩

theorem C2_interruption_reset_witness :
    c2state.pending = [] ∧
    (enqueueNow (step c2state (Ev.message none true)) 3 2).started =
      c2state.started ++ [(c2state.nextId, max 0 (max c2state.clock 3), 2)] ∧
    interruptStopAll [true, false] = Except.ok () :=
  ⟨rfl, C2_interruption_reset.2.1 c2state 3 2 rfl,
    C2_interruption_reset.2.2.2 [true, false]⟩

/-- C3 counterexample: units are committed in decode-completion order, not
enqueue order — the cursor read at `source.start` happens after the decode
await, so when the decode of the earlier-enqueued unit settles last, the
earlier unit starts later.  Concretely: unit 0 (1 s) and unit 1 (2 s) are
enqueued in that order at clock 0; unit 1's decode settles first, so unit 1
starts at 0 and unit 0 starts at 2 — the first-enqueued unit's start is
later than the second's, refuting the claim. -/
theorem C3_counterexample :
    (run initSched [Ev.message (some 1) false, Ev.message (some 2) false,
                    Ev.decoded 1 true, Ev.decoded 0 true]).started
      = [(1, 0, 2), (0, 2, 1)] ∧ ¬((2 : ℚ) ≤ 0) := by
  constructor
  · norm_num [run, step, initSched, qmax]
  · norm_num

/-- C3 (amended): the scheduler serialises the cursor read-then-advance at
decode completion, not at enqueue: in every interruption-free interleaving
with nonnegative durations the committed log — which lists units in
decode-completion order — is chained and has nondecreasing start times, so
the earlier-enqueued unit starts no later than a later one exactly when its
decode also completes no later. -/
theorem C3_completion_order (evs : List Ev) (h : evs.all evOkB = true) :
    ChainedLog (run initSched evs).started ∧
    List.Pairwise (fun a b => a.2.1 ≤ b.2.1) (run initSched evs).started := by
  have hinv := run_inv initSched_inv h
  exact ⟨hinv.chained, chained_starts_mono _ hinv.chained hinv.nonnegLog⟩

theorem C3_completion_order_witness :
    ([Ev.message (some 1) false, Ev.message (some 2) false,
      Ev.decoded 1 true, Ev.decoded 0 true].all evOkB = true) ∧
    (ChainedLog (run initSched [Ev.message (some 1) false, Ev.message (some 2) false,
      Ev.decoded 1 true, Ev.decoded 0 true]).started ∧
     List.Pairwise (fun a b => a.2.1 ≤ b.2.1)
      (run initSched [Ev.message (some 1) false, Ev.message (some 2) false,
        Ev.decoded 1 true, Ev.decoded 0 true]).started) :=
  ⟨by decide, C3_completion_order _ (by decide)⟩

/-- C4 counterexample: the interruption is not atomic with respect to an
enqueue whose decode is pending.  At clock 100, unit 0 (2 s) is enqueued;
the interruption then resets the cursor and clears the set; unit 1 (3 s) is
enqueued strictly after the reset; unit 0's decode then settles, committing
it into the just-cleared active set and advancing the cursor, so unit 1 is
scheduled at 102 — not at `max(0, clock) = 100`, i.e. not from cursor 0 —
and the final active set again contains the pre-reset unit 0. -/
theorem C4_counterexample :
    (run initSched [Ev.tick 100, Ev.message (some 2) false, Ev.message none true,
                    Ev.message (some 3) false, Ev.decoded 0 true, Ev.decoded 1 true]).started
      = [(0, 100, 2), (1, 102, 3)] ∧
    (run initSched [Ev.tick 100, Ev.message (some 2) false, Ev.message none true,
                    Ev.message (some 3) false, Ev.decoded 0 true, Ev.decoded 1 true]).active
      = [0, 1] ∧
    ¬((102 : ℚ) = qmax 0 100) := by
  refine ⟨?_, ?_, ?_⟩
  · norm_num [run, step, initSched, qmax, applyInterrupt]
  · norm_num [run, step, initSched, qmax, applyInterrupt]
  · norm_num [qmax]

/-- C4 (amended): the reset block itself is a single atomic step; no
enqueue ever commits the pre-reset cursor value — the commit step re-reads
the shared cursor, and the whole post-reset run is independent of the
pre-reset cursor and active set; when no decode is pending at the reset, a
unit enqueued strictly after it schedules at `max(0, clock)`.  However
(counterexample) a unit whose decode was pending at the reset commits after
it, so a later-enqueued unit schedules from the post-reset chain, not
necessarily from cursor exactly 0. -/
theorem C4_reset_wipes_cursor :
    (∀ s : SchedState, step s (Ev.message none true) = applyInterrupt s) ∧
    (∀ (s : SchedState) (c : ℚ) (a : List ℕ) (evs : List Ev),
      run (applyInterrupt { s with cursor := c, active := a }) evs =
        run (applyInterrupt s) evs) ∧
    (∀ (s : SchedState) (t d : ℚ), s.pending = [] →
      (enqueueNow (applyInterrupt s) t d).started =
        s.started ++ [(s.nextId, max 0 (max s.clock t), d)]) := by
  refine ⟨fun s => rfl, fun s c a evs => rfl, ?_⟩
  intro s t d h
  rw [enqueueNow_spec (applyInterrupt s) t d h]
  simp [applyInterrupt, qmax_eq_max]

def c4state : SchedState := ⟨9, 4, [], [3], [(3, 1, 8)], 7⟩

theorem C4_reset_wipes_cursor_witness :
    c4state.pending = [] ∧
    (enqueueNow (applyInterrupt c4state) 5 2).started =
      c4state.started ++ [(c4state.nextId, max 0 (max c4state.clock 5), 2)] :=
  ⟨rfl, C4_reset_wipes_cursor.2.2 c4state 5 2 rfl⟩

/-- C5: invoking the stop operation from any component state — which covers
every reachable state, `Connecting`, `Live` or `Errored` included —
terminates in the idle state, with every track of the acquired input media
stream stopped and both audio contexts (when held) closed. -/
theorem C5_stop_reaches_idle (s : AppState) :
    ∃ s2 rel, stopSession s = Except.ok (s2, rel) ∧
      isIdleState s2 = true ∧
      rel.stoppedTracks.all (fun t => t.stopped) = true ∧
      Option.all (fun c => c.closed) rel.closedInput = true ∧
      Option.all (fun c => c.closed) rel.closedOutput = true ∧
      rel.closedInput.isSome = s.inputCtx.isSome ∧
      rel.closedOutput.isSome = s.outputCtx.isSome ∧
      rel.stoppedTracks.length = (s.stream.map (fun ms => ms.tracks.length)).getD 0 := by
  refine ⟨_, _, stopSession_eq s, ?_, ?_, ?_, ?_, ?_, ?_, ?_⟩
  · simp [isIdleState]
  · cases s.stream <;> simp [stopTrack]
  · cases s.inputCtx <;> simp [closeCtx]
  · cases s.outputCtx <;> simp [closeCtx]
  · cases s.inputCtx <;> simp
  · cases s.outputCtx <;> simp
  · cases s.stream <;> simp

/-- C6: a decode failure is contained to its own payload: the failing
continuation touches neither the cursor, the active set, the committed log
nor the clock, and a subsequently enqueued payload is scheduled exactly as
it would have been had the failed payload never arrived (its start is still
`max(cursor, clock)`), the scheduler continuing to accept payloads. -/
theorem C6_decode_failure_contained :
    (∀ (s : SchedState) (tid : ℕ),
      (step s (Ev.decoded tid false)).cursor = s.cursor ∧
      (step s (Ev.decoded tid false)).active = s.active ∧
      (step s (Ev.decoded tid false)).started = s.started ∧
      (step s (Ev.decoded tid false)).clock = s.clock) ∧
    (∀ (s : SchedState) (t d u d' : ℚ), s.pending = [] → t ≤ u →
      (enqueueNow (failedEnqueue s t d) u d').started =
        s.started ++ [(s.nextId + 1, max s.cursor (max s.clock u), d')]) := by
  constructor
  · intro s tid
    rcases hfind : s.pending.find? (fun p => p.1 == tid) with _ | p
    · simp [step, hfind]
    · obtain ⟨p1, pd, pi⟩ := p
      simp [step, hfind]
  · intro s t d u d' h ht
    rw [failedEnqueue_spec s t d h]
    rw [enqueueNow_spec _ u d' rfl]
    simp only []
    rw [qmax_absorb, qmax_shift s.clock t u ht]
    simp [qmax_eq_max]

def c6state : SchedState := ⟨4, 1, [], [2], [(2, 1, 3)], 3⟩

theorem C6_decode_failure_contained_witness :
    c6state.pending = [] ∧ (1 : ℚ) ≤ 2 ∧
    (enqueueNow (failedEnqueue c6state 1 5) 2 6).started =
      c6state.started ++ [(c6state.nextId + 1, max c6state.cursor (max c6state.clock 2), 6)] :=
  ⟨rfl, by decide, C6_decode_failure_contained.2 c6state 1 5 2 6 rfl (by decide)⟩

/-- C7: when device acquisition fails during a start request from the idle
state, `ai.live.connect` is never invoked, the user-visible error message is
set, the two audio contexts created before the acquisition attempt are both
closed, and the component ends back in the idle state holding no
resources. -/
theorem C7_mic_denied (s0 : AppState) (h : isIdleState s0 = true) :
    (startSession s0 false).connectCalled = false ∧
    (startSession s0 false).state.errorMsg = some micDeniedMsg ∧
    isIdleState (startSession s0 false).state = true ∧
    (startSession s0 false).released.closedInput = some ⟨true⟩ ∧
    (startSession s0 false).released.closedOutput = some ⟨true⟩ := by
  rcases s0 with ⟨sess, proc, src, str, ic, oc, pl, c, tk, em⟩
  simp only [isIdleState, Bool.and_eq_true, Option.isNone_iff_eq_none,
    List.isEmpty_iff, Bool.not_eq_true'] at h
  obtain ⟨⟨⟨⟨⟨⟨⟨⟨hsess, hproc⟩, hsrc⟩, hstr⟩, hic⟩, hoc⟩, hpl⟩, hc⟩, htk⟩ := h
  subst hsess hc htk
  simp [startSession, cleanupAudio, isIdleState, closeCtx]

theorem C7_mic_denied_witness :
    isIdleState initApp = true ∧
    ((startSession initApp false).connectCalled = false ∧
     (startSession initApp false).state.errorMsg = some micDeniedMsg ∧
     isIdleState (startSession initApp false).state = true ∧
     (startSession initApp false).released.closedInput = some ⟨true⟩ ∧
     (startSession initApp false).released.closedOutput = some ⟨true⟩) :=
  ⟨by decide, C7_mic_denied initApp (by decide)⟩

/-- C8: a transient send failure is contained to its frame: the
`onaudioprocess` handler never raises (the rejection is caught and logged),
the failed frame is discarded and logged, the delivered-frame sequence is
exactly as if the failed frame had never been produced, and every
subsequent frame is still encoded and sent. -/
theorem C8_send_failure_contained :
    (∀ (f : ℕ) (ok : Bool), ∃ r, handleFrame f ok = Except.ok r) ∧
    (∀ (xs ys : List (ℕ × Bool)) (n : ℕ),
      (runCapture (xs ++ (n, false) :: ys)).1 = (runCapture (xs ++ ys)).1 ∧
      (runCapture (xs ++ (n, false) :: ys)).2 =
        (runCapture xs).2 ++ n :: (runCapture ys).2) := by
  constructor
  · intro f ok
    cases ok <;> exact ⟨_, rfl⟩
  · intro xs ys n
    have h1 := runCapture_append xs ((n, false) :: ys)
    have h2 := runCapture_append xs ys
    constructor
    · rw [h1, h2]
      simp [runCapture, sendFrame]
    · rw [h1]
      simp [runCapture, sendFrame]

/-- C9: the stop operation is total and idempotent: it never raises (errors
while closing the session are swallowed and teardown still runs, even with
partially acquired state), and a second invocation leaves the fully
torn-down state unchanged and releases nothing. -/
theorem C9_stop_idempotent :
    (∀ s : AppState, ∃ out, stopSession s = Except.ok out) ∧
    (∀ (s s1 : AppState) (rel1 : Released),
      stopSession s = Except.ok (s1, rel1) →
      stopSession s1 = Except.ok (s1, noRelease)) := by
  constructor
  · intro s
    exact ⟨_, stopSession_eq s⟩
  · intro s s1 rel1 h
    rw [stopSession_eq s] at h
    have hs1 := (congrArg Prod.fst (Except.ok.inj h)).symm
    subst hs1
    rw [stopSession_eq]
    simp [noRelease]

def c9state : AppState :=
  ⟨some ⟨true⟩, some (), some (), some ⟨[⟨false⟩, ⟨false⟩]⟩, some ⟨false⟩, some ⟨false⟩,
   [false, true], true, true, none⟩

def c9rel : Released := ⟨[⟨true⟩, ⟨true⟩], some ⟨true⟩, some ⟨true⟩⟩

theorem C9_stop_idempotent_witness :
    stopSession c9state = Except.ok (initApp, c9rel) ∧
    stopSession initApp = Except.ok (initApp, noRelease) :=
  ⟨rfl, C9_stop_idempotent.2 c9state initApp c9rel rfl⟩

/-- C10: a message carrying both an audio payload and the interruption flag
first commits the unit (it appears in the log, scheduled at the cursor) and
then, in the same handler invocation, stops it, clears the active set and
resets the cursor to 0 — so when the handler returns the unit is not in the
active playback set. -/
theorem C10_audio_with_interrupt (s : SchedState) (tid : ℕ) (d : ℚ)
    (h : s.pending.find? (fun p => p.1 == tid) = some (tid, d, true)) :
    (step s (Ev.decoded tid true)).started = s.started ++ [(tid, s.cursor, d)] ∧
    (step s (Ev.decoded tid true)).active = [] ∧
    (step s (Ev.decoded tid true)).cursor = 0 := by
  simp [step, h, applyInterrupt]

def c10state : SchedState := ⟨5, 2, [(0, 1, true)], [7], [], 1⟩

theorem C10_audio_with_interrupt_witness :
    c10state.pending.find? (fun p => p.1 == 0) = some (0, 1, true) ∧
    ((step c10state (Ev.decoded 0 true)).started = c10state.started ++ [(0, c10state.cursor, 1)] ∧
     (step c10state (Ev.decoded 0 true)).active = [] ∧
     (step c10state (Ev.decoded 0 true)).cursor = 0) :=
  ⟨by decide, C10_audio_with_interrupt c10state 0 1 (by decide)⟩

end LingoMate
